import Mathlib

set_option maxRecDepth 4000

/-!
Verification development for the PasswordManagerFull server core.

This file shallowly embeds the Python code of Server/CommunicationProtocol.py,
Server/Server.py and Server/Session.py into Lean 4 and proves properties of
the embedding.  Python strings are modelled as lists of Unicode code points,
byte sequences as lists of naturals below 256, dictionaries as association
lists with Python's insertion-order update semantics, and exceptions as an
explicit error type.
-/

/-- A Python str value: a finite sequence of Unicode code points. -/
abbrev PyStr : Type := List Nat

/-- The string "req". -/
def strReq : PyStr := [114, 101, 113]

/-- The string "res". -/
def strRes : PyStr := [114, 101, 115]

/-- The string "Session". -/
def strSession : PyStr := [83, 101, 115, 115, 105, 111, 110]

/-- The string "Method". -/
def strMethod : PyStr := [77, 101, 116, 104, 111, 100]

/-- The kinds of Python exceptions the embedded code can raise.
communicationProtocolException stands for the CommunicationProtocol
module's own exception class. -/
inductive PyErr : Type
  | communicationProtocolException
  | typeError
  | unicodeDecodeError
  | indexError
  | keyError
  | overflowError
  deriving DecidableEq, Repr

/-- UTF-8 encoding of a single code point (str.encode does this per char). -/
def utf8EncodeChar (c : Nat) : List Nat :=
  if c < 128 then [c]
  else if c < 2048 then [192 + c / 64, 128 + c % 64]
  else if c < 65536 then [224 + c / 4096, 128 + (c / 64) % 64, 128 + c % 64]
  else [240 + c / 262144, 128 + (c / 4096) % 64, 128 + (c / 64) % 64, 128 + c % 64]

/-- Python str.encode(): UTF-8 encode every code point. -/
def pyEncode (s : PyStr) : List Nat :=
  (s.map utf8EncodeChar).flatten

/-- Whether a byte is a UTF-8 continuation byte. -/
def isCont (b : Nat) : Bool :=
  decide (128 ≤ b ∧ b < 192)

/-- Python bytes.decode(): strict UTF-8 decoding, rejecting truncated
sequences, overlong encodings, surrogates and values above 0x10FFFF.
Returns none where CPython raises UnicodeDecodeError. -/
def utf8Decode : List Nat → Option PyStr
  | [] => some []
  | b :: rest =>
    if b < 128 then
      (utf8Decode rest).map (fun cs => b :: cs)
    else if b < 194 then none
    else if b < 224 then
      match rest with
      | b1 :: rest1 =>
        if isCont b1 then
          (utf8Decode rest1).map (fun cs => ((b - 192) * 64 + (b1 - 128)) :: cs)
        else none
      | [] => none
    else if b < 240 then
      match rest with
      | b1 :: b2 :: rest2 =>
        if isCont b1 && isCont b2 then
          let c := (b - 224) * 4096 + (b1 - 128) * 64 + (b2 - 128)
          if c < 2048 ∨ (55296 ≤ c ∧ c < 57344) then none
          else (utf8Decode rest2).map (fun cs => c :: cs)
        else none
      | _ => none
    else if b < 245 then
      match rest with
      | b1 :: b2 :: b3 :: rest3 =>
        if isCont b1 && isCont b2 && isCont b3 then
          let c := (b - 240) * 262144 + (b1 - 128) * 4096 + (b2 - 128) * 64 + (b3 - 128)
          if c < 65536 ∨ 1114112 ≤ c then none
          else (utf8Decode rest3).map (fun cs => c :: cs)
        else none
      | _ => none
    else none

/-- Python bytearray slice assignment arr[i:j] = data: the slice is replaced
by data, resizing the array when the lengths differ. -/
def setSlice (arr : List Nat) (i j : Nat) (data : List Nat) : List Nat :=
  arr.take i ++ data ++ arr.drop j

/-- Python bytearray slice assignment arr[i:] = data. -/
def setSliceFrom (arr : List Nat) (i : Nat) (data : List Nat) : List Nat :=
  arr.take i ++ data

/-- Python int.to_bytes(w, 'little') once the value is known to fit. -/
def toBytesLE : Nat → Nat → List Nat
  | 0, _ => []
  | w + 1, v => v % 256 :: toBytesLE w (v / 256)

/-- Python int.from_bytes(bs, 'little') (accepts any length). -/
def fromBytesLE (bs : List Nat) : Nat :=
  bs.foldr (fun b acc => b + 256 * acc) 0

/-- A CommunicationProtocol message: direction tag, headers dict, body. -/
structure Msg where
  req_res : PyStr
  headers : List (PyStr × PyStr)
  body : Option (List Nat)
  deriving DecidableEq, Repr

/-- Python dict assignment d[k] = v: update in place when the key exists
(keeping its position), otherwise append at the end. -/
def pyDictInsert {α : Type} (d : List (PyStr × α)) (k : PyStr) (v : α) :
    List (PyStr × α) :=
  if d.any (fun p => decide (p.1 = k)) then
    d.map (fun p => if p.1 = k then (k, v) else p)
  else d ++ [(k, v)]

/-- Python dict.get(k): the value stored under k, if any. -/
def pyDictGet {α : Type} (d : List (PyStr × α)) (k : PyStr) : Option α :=
  (d.find? (fun p => decide (p.1 = k))).map Prod.snd

/-- CommunicationProtocol.get_header_value. -/
def get_header_value (m : Msg) (header_name : PyStr) : Option PyStr :=
  pyDictGet m.headers header_name

/-- CommunicationProtocol.set_header_value. -/
def set_header_value (m : Msg) (header_name header_value : PyStr) : Msg :=
  { m with headers := pyDictInsert m.headers header_name header_value }

/-- CommunicationProtocol.get_params_list: each header as "name=value". -/
def get_params_list (m : Msg) : List PyStr :=
  m.headers.map (fun p => p.1 ++ [61] ++ p.2)

/-- The header_length value computed in to_bytes: 6 plus the tag length
plus, for each parameter, its character count plus one for the ':'. -/
def header_length (m : Msg) : Nat :=
  6 + m.req_res.length + ((get_params_list m).map (fun p => p.length + 1)).sum

/-- The body_length value computed in to_bytes (0 if the body is None). -/
def body_length (m : Msg) : Nat :=
  match m.body with | none => 0 | some b => b.length

/-- The preallocated bytearray of to_bytes after its four fixed writes:
byte_arr[0:3] = tag, [3:4] = ':', [4:8] = header_length little-endian,
[8:9] = ':'. -/
def preamble_arr (m : Msg) : List Nat :=
  setSlice (setSlice (setSlice (setSlice
    (List.replicate (header_length m + body_length m) 0)
    0 3 (pyEncode m.req_res)) 3 4 [58])
    4 8 (toBytesLE 4 (header_length m))) 8 9 [58]

/-- The parameter loop of to_bytes: starting at i = 9, write each
"param:" by slice assignment and advance i by len(param)+1. -/
def params_write (m : Msg) : List Nat × Nat :=
  (get_params_list m).foldl
    (fun (st : List Nat × Nat) p =>
      (setSlice st.1 st.2 (st.2 + p.length + 1) (pyEncode (p ++ [58])),
       st.2 + p.length + 1))
    (preamble_arr m, 9)

/-- CommunicationProtocol.to_bytes.  The bytearray is preallocated from
character counts and filled by slice assignment; header_length.to_bytes(4)
raises OverflowError when the value does not fit four bytes, which is the
none case here. -/
def to_bytes (m : Msg) : Option (List Nat) :=
  if header_length m < 4294967296 then
    match m.body with
    | none => some (params_write m).1
    | some b => some (setSliceFrom (params_write m).1 (params_write m).2 b)
  else none

/-- The header-section scan of CommunicationProtocol.from_bytes, with
explicit fuel.  The loop body reads byte_arr[i] (IndexError when i is past
the end), splits on ':' and accumulates the current parameter. -/
def readParamsFuel (bs : List Nat) (header_length : Nat) :
    Nat → Nat → PyStr → List PyStr → Except PyErr (List PyStr × Nat)
  | 0, i, _, params => .ok (params, i)
  | fuel + 1, i, param, params =>
    if i < header_length then
      match bs.get? i with
      | none => .error .indexError
      | some b =>
        if b = 58 then readParamsFuel bs header_length fuel (i + 1) [] (params ++ [param])
        else readParamsFuel bs header_length fuel (i + 1) (param ++ [b]) params
    else .ok (params, i)

/-- The while loop of CommunicationProtocol.from_bytes: scan indices
i = start .. header_length - 1. -/
def readParams (bs : List Nat) (header_length i : Nat) (param : PyStr)
    (params : List PyStr) : Except PyErr (List PyStr × Nat) :=
  readParamsFuel bs header_length (header_length - i) i param params

/-- Python str.split(sep) for a one-character separator. -/
def pySplit (c : Nat) : PyStr → List PyStr
  | [] => [[]]
  | b :: rest =>
    if b = c then [] :: pySplit c rest
    else
      match pySplit c rest with
      | [] => [[b]]
      | p :: ps => (b :: p) :: ps

/-- CommunicationProtocol.params_list_to_dict: split each "name=value" on
'=' and insert; indexing split_param[1] raises IndexError when a parameter
contains no '='. -/
def params_list_to_dict_go (acc : List (PyStr × PyStr)) :
    List PyStr → Except PyErr (List (PyStr × PyStr))
  | [] => .ok acc
  | param :: rest =>
    match pySplit 61 param with
    | header_name :: header_value :: _ =>
      params_list_to_dict_go (pyDictInsert acc header_name header_value) rest
    | _ => .error .indexError

/-- CommunicationProtocol.params_list_to_dict. -/
def params_list_to_dict (params_list : List PyStr) :
    Except PyErr (List (PyStr × PyStr)) :=
  params_list_to_dict_go [] params_list

/-- The header scan and reassembly of from_bytes, once the direction tag
and the header_length field have been read. -/
def from_bytes_body (bs : List Nat) (req_res : PyStr) (header_length : Nat) :
    Except PyErr Msg :=
  match readParams bs header_length 9 [] [] with
  | .error e => .error e
  | .ok (params, i) =>
    match params_list_to_dict params with
    | .error e => .error e
    | .ok headers => .ok ⟨req_res, headers, some (bs.drop i)⟩

/-- The tag check of from_bytes.  When the tag is neither req nor res the
source builds a CommunicationProtocolException to raise, but that class's
constructor runs super.__init__(message) on the builtin super type itself
(the parentheses after super are missing in the source), so CPython raises
TypeError while constructing the exception; the intended
communicationProtocolException value is never produced. -/
def from_bytes_tagged (bs : List Nat) (req_res : PyStr) : Except PyErr Msg :=
  if req_res = strReq ∨ req_res = strRes then
    from_bytes_body bs req_res (fromBytesLE ((bs.drop 4).take 4))
  else
    .error .typeError

/-- CommunicationProtocol.from_bytes.  Invalid UTF-8 in the first three
bytes makes byte_arr[0:3].decode() raise UnicodeDecodeError before the tag
check. -/
def from_bytes (bs : List Nat) : Except PyErr Msg :=
  match utf8Decode (bs.take 3) with
  | none => .error .unicodeDecodeError
  | some req_res => from_bytes_tagged bs req_res

example : from_bytes [120, 121, 122] = .error .typeError := rfl
example : from_bytes [255, 0, 0] = .error .unicodeDecodeError := rfl
example :
    to_bytes ⟨strReq, [([97], [98])], some [7]⟩ =
      some [114, 101, 113, 58, 13, 0, 0, 0, 58, 97, 61, 98, 58, 7] := rfl
example :
    from_bytes [114, 101, 113, 58, 13, 0, 0, 0, 58, 97, 61, 98, 58, 7] =
      .ok ⟨strReq, [([97], [98])], some [7]⟩ := rfl

/-! ## Sessions and the session store (Session.py, Server.py) -/

/-- A Session object: its creation timestamp (its free-form data mapping is
written only by out-of-scope business handlers and is not modelled). -/
structure Session where
  creation_date : Nat
  deriving DecidableEq, Repr

/-- Session.seconds_alive at the current time now. -/
def seconds_alive (now : Nat) (s : Session) : Nat :=
  now - s.creation_date

/-- The SessionServer.sessions dictionary: token to Session. -/
abbrev Store : Type := List (PyStr × Session)

/-- Python token in self.sessions. -/
def storeHasKey (st : Store) (token : PyStr) : Bool :=
  st.any (fun p => decide (p.1 = token))

/-- Python self.sessions.get(token). -/
def storeGet (st : Store) (token : PyStr) : Option Session :=
  pyDictGet st token

/-- Removal of a key from the store (the effect of a successful
dict.pop(token); keys are unique in a dict, so filtering is the same as
removing the one entry). -/
def storeRemove (st : Store) (token : PyStr) : Store :=
  st.filter (fun p => decide (p.1 ≠ token))

/-- SessionServer.get_session. -/
def get_session (st : Store) (token : PyStr) : Option Session :=
  storeGet st token

/-- SessionServer.close_session: self.sessions.pop(token) with no default
raises KeyError when the token is absent. -/
def close_session (st : Store) (token : PyStr) : Except PyErr Store :=
  if storeHasKey st token then .ok (storeRemove st token) else .error .keyError

/-- string.ascii_lowercase + string.ascii_uppercase + string.digits. -/
def characters : PyStr :=
  (List.range 26).map (fun i => 97 + i) ++ (List.range 26).map (fun i => 65 + i)
    ++ (List.range 10).map (fun i => 48 + i)

/-- characters[k] for an index produced by randint(0, len(characters)-1). -/
def charAt (k : Fin 62) : Nat :=
  characters.getD k.val 0

/-- One candidate token: length draws from the random stream r starting at
position pos, each mapped through the characters alphabet. -/
def genAttempt (r : Nat → Fin 62) (pos length : Nat) : PyStr :=
  (List.range length).map (fun i => charAt (r (pos + i)))

/-- SessionServer.generate_session_token: rebuild a candidate while it
collides with a live token or is empty.  The random source is an explicit
stream r of randint(0, 61) draws; fuel bounds the number of loop
iterations, none meaning the loop has not terminated within fuel tries. -/
def generate_session_token (r : Nat → Fin 62) (st : Store) (length : Nat) :
    Nat → Nat → Option PyStr
  | 0, _ => none
  | fuel + 1, pos =>
    let token := genAttempt r pos length
    if storeHasKey st token || decide (token = []) then
      generate_session_token r st length fuel (pos + length)
    else some token

/-- SessionServer.create_session: generate a fresh token and insert a new
Session created now. -/
def create_session (r : Nat → Fin 62) (st : Store) (session_token_length now fuel pos : Nat) :
    Option (PyStr × Store) :=
  match generate_session_token r st session_token_length fuel pos with
  | none => none
  | some token => some (token, pyDictInsert st token ⟨now⟩)

/-- One wake of the SessionServer.remove_sessions loop.  raceErr injects the
RuntimeError CPython raises when another thread resizes the dictionary
during the scan; the source catches it and returns, ending the worker
(the none result).  Otherwise the expired tokens are collected and each is
popped (every collected token is present, so no pop can fail here). -/
def remove_sessions_iter (raceErr : Bool) (now ttl : Nat) (st : Store) : Option Store :=
  if raceErr then none
  else
    let remove_tokens := (st.filter (fun p => decide (seconds_alive now p.2 > ttl))).map Prod.fst
    some (remove_tokens.foldl (fun s token => storeRemove s token) st)

/-- n wakes of the eviction worker starting at tick k: err says which ticks
hit the RuntimeError, nows gives the clock at each tick.  none means the
worker has terminated. -/
def remove_sessions_run (err : Nat → Bool) (nows : Nat → Nat) (ttl : Nat) :
    Nat → Nat → Store → Option Store
  | _, 0, st => some st
  | k, n + 1, st =>
    match remove_sessions_iter (err k) (nows k) ttl st with
    | none => none
    | some st' => remove_sessions_run err nows ttl (k + 1) n st'

/-! ## Connection handling (Server.handle_client) -/

/-- The handler pipeline of Server.handle_client: each handler output feeds
the next handler; an exception aborts the chain. -/
def runHandlers {α ε : Type} : List (α → Except ε α) → α → Except ε α
  | [], x => .ok x
  | h :: rest, x =>
    match h x with
    | .ok y => runHandlers rest y
    | .error e => .error e

/-- What one call of Server.handle_client did: whether close_client ran,
and the exception that escaped, if any. -/
structure HandleOutcome (ε : Type) where
  closed : Bool
  raised : Option ε
  deriving DecidableEq, Repr

/-- Server.handle_client: receive, run the handler chain, then close the
client socket.  There is no try/finally in the source, so an exception
raised by receive_message or by any handler propagates before close_client
is reached. -/
def handle_client {α ε : Type} (recv : Except ε α)
    (handlers : List (α → Except ε α)) : HandleOutcome ε :=
  match recv with
  | .error e => ⟨false, some e⟩
  | .ok message =>
    match runHandlers handlers message with
    | .error e => ⟨false, some e⟩
    | .ok _ => ⟨true, none⟩

/-- Whether an Except value is a success. -/
def exceptIsOk {ε α : Type} : Except ε α → Bool
  | .ok _ => true
  | .error _ => false

/-- The receive step followed by the whole handler chain. -/
def pipelineRun {α ε : Type} (recv : Except ε α)
    (handlers : List (α → Except ε α)) : Except ε α :=
  match recv with
  | .error e => .error e
  | .ok m => runHandlers handlers m

/-! ## The protocol dispatcher stages (CommunicationProtocolServer) -/

/-- CommunicationProtocolServer.session_generator: on the '*' directive,
create a session and overwrite the Session header with the new token;
otherwise pass the request through untouched. -/
def session_generator (r : Nat → Fin 62) (tokenLen now fuel pos : Nat)
    (st : Store) (req : Msg) : Option (Store × Msg) :=
  match get_header_value req strSession with
  | some session_value =>
    if session_value = [42] then
      match create_session r st tokenLen now fuel pos with
      | none => none
      | some (session_token, st') =>
        some (st', set_header_value req strSession session_token)
    else some (st, req)
  | none => some (st, req)

/-- A registered business method handler: called with req, res and the
resolved session; returns the mutated res. -/
def MethodFun : Type := Msg → Msg → Option Session → Msg

/-- The observable outcome of one CommunicationProtocolServer.method_handler
call: the final session store, the session argument the business handler
was invoked with (none in the first component means it was never invoked),
the response that was sent (if the send was reached), the escaped
exception, and the normal (req, res) return value. -/
structure MHResult where
  store : Store
  handlerCalled : Option (Option Session)
  sent : Option Msg
  err : Option PyErr
  ret : Option (Msg × Msg)
  deriving DecidableEq

/-- The tail of method_handler once the business handler has produced
res2: send res.to_bytes() (OverflowError when it cannot be built), then,
when the original directive started with '~', pop the session (KeyError
when the token is absent, after the response has already been sent),
finally return (req, res2). -/
def method_handler_send (st : Store) (req res2 : Msg) (c : Nat)
    (session_token : PyStr) (session : Option Session) : MHResult :=
  match to_bytes res2 with
  | none => ⟨st, some session, none, some .overflowError, none⟩
  | some _ =>
    if c = 126 then
      match close_session st session_token with
      | .ok st' => ⟨st', some session, some res2, none, some (req, res2)⟩
      | .error e => ⟨st, some session, some res2, some e, none⟩
    else ⟨st, some session, some res2, none, some (req, res2)⟩

/-- The middle of method_handler: resolve the session from the stripped
token ('-' means no session), preset the response's Session header, look
up the Method header in method_handlers (KeyError when the header is
missing or the method unregistered), and run the registered handler. -/
def method_handler_dispatch (method_handlers : List (PyStr × MethodFun))
    (st : Store) (req : Msg) (c : Nat) (session_token : PyStr) : MHResult :=
  let session : Option Session :=
    if session_token = [45] then none else get_session st session_token
  let res1 := set_header_value ⟨strRes, [], none⟩ strSession session_token
  match get_header_value req strMethod with
  | none => ⟨st, none, none, some .keyError, none⟩
  | some mname =>
    match pyDictGet method_handlers mname with
    | none => ⟨st, none, none, some .keyError, none⟩
    | some f =>
      method_handler_send st req (f req res1 session) c session_token session

/-- CommunicationProtocolServer.method_handler.  Subscripting a missing
Session header (None) raises TypeError, subscripting an empty one raises
IndexError; otherwise a leading '~' is stripped from the token and
dispatch continues. -/
def method_handler (method_handlers : List (PyStr × MethodFun))
    (st : Store) (req : Msg) : MHResult :=
  match get_header_value req strSession with
  | none => ⟨st, none, none, some .typeError, none⟩
  | some [] => ⟨st, none, none, some .indexError, none⟩
  | some (c :: restTok) =>
    method_handler_dispatch method_handlers st req c
      (if c = 126 then restTok else c :: restTok)

/-- The session-resolution stage followed by the method-dispatch stage, as
run for one decoded request. -/
def dispatch (r : Nat → Fin 62) (tokenLen now fuel pos : Nat)
    (method_handlers : List (PyStr × MethodFun)) (st : Store) (req : Msg) :
    Option (Msg × MHResult) :=
  match session_generator r tokenLen now fuel pos st req with
  | none => none
  | some (st', req') => some (req', method_handler method_handlers st' req')

/-! ## Reachable states of the session store -/

/-- One atomic store operation, as executed by a request-handling thread or
by the eviction worker. -/
inductive StoreStep (tokenLen : Nat) : Store → Store → Prop
  | create (r : Nat → Fin 62) (now fuel pos : Nat) (t : PyStr) (st st' : Store) :
      create_session r st tokenLen now fuel pos = some (t, st') →
      StoreStep tokenLen st st'
  | close (t : PyStr) (st st' : Store) :
      close_session st t = .ok st' → StoreStep tokenLen st st'
  | evict (now ttl : Nat) (st st' : Store) :
      remove_sessions_iter false now ttl st = some st' → StoreStep tokenLen st st'

/-- States of the session store reachable from the empty store at startup
by create, close and evict operations. -/
def ReachableStore (tokenLen : Nat) (st : Store) : Prop :=
  Relation.ReflTransGen (StoreStep tokenLen) [] st

example : generate_session_token (fun _ => ⟨0, by decide⟩) [] 1 1 0 = some [97] := rfl
example : charAt ⟨61, by decide⟩ = 57 := rfl

/-! ## Store lemmas -/

theorem storeGet_eq_none (st : Store) (t : PyStr) (h : storeHasKey st t = false) :
    storeGet st t = none := by
  have hnone : st.find? (fun p => decide (p.1 = t)) = none := by
    rw [List.find?_eq_none]
    intro p hp
    simp only [storeHasKey, List.any_eq_false, decide_eq_true_eq] at h
    simpa using h p hp
  simp [storeGet, pyDictGet, hnone]

theorem storeGet_storeRemove (st : Store) (t : PyStr) :
    storeGet (storeRemove st t) t = none := by
  apply storeGet_eq_none
  simp only [storeHasKey, storeRemove, List.any_eq_false, decide_eq_true_eq]
  intro p hp
  have hmem := List.mem_filter.mp hp
  simpa using hmem.2

/-- The keys of a dictionary, in insertion order. -/
def dictKeys {α : Type} (d : List (PyStr × α)) : List PyStr :=
  d.map Prod.fst

theorem dictKeys_pyDictInsert {α : Type} (d : List (PyStr × α)) (k : PyStr) (v : α)
    (h : (dictKeys d).Nodup) : (dictKeys (pyDictInsert d k v)).Nodup := by
  unfold pyDictInsert
  split
  · have hkeys : dictKeys (d.map fun p => if p.1 = k then (k, v) else p) = dictKeys d := by
      unfold dictKeys
      rw [List.map_map]
      apply List.map_congr_left
      intro p _
      by_cases hpk : p.1 = k
      · simp [hpk]
      · simp [hpk]
    rw [hkeys]; exact h
  · rename_i hany
    unfold dictKeys
    rw [List.map_append]
    apply List.Nodup.append h (List.nodup_singleton k)
    intro x hx hk
    simp only [List.map_cons, List.map_nil, List.mem_singleton] at hk
    subst hk
    rcases List.mem_map.mp hx with ⟨p, hp, hfst⟩
    rw [Bool.not_eq_true, List.any_eq_false] at hany
    have := hany p hp
    simp only [decide_eq_true_eq] at this
    exact this hfst

theorem dictKeys_storeRemove (st : Store) (t : PyStr)
    (h : (dictKeys st).Nodup) : (dictKeys (storeRemove st t)).Nodup := by
  unfold storeRemove dictKeys
  exact h.sublist ((List.filter_sublist st).map Prod.fst)

theorem dictKeys_foldl_storeRemove (ts : List PyStr) (st : Store)
    (h : (dictKeys st).Nodup) :
    (dictKeys (ts.foldl (fun s token => storeRemove s token) st)).Nodup := by
  induction ts generalizing st with
  | nil => exact h
  | cons t ts ih => exact ih _ (dictKeys_storeRemove st t h)

theorem storeStep_nodup {tokenLen : Nat} {st st' : Store}
    (hstep : StoreStep tokenLen st st') (h : (dictKeys st).Nodup) :
    (dictKeys st').Nodup := by
  cases hstep with
  | create r now fuel pos t st st' hc =>
    unfold create_session at hc
    cases hg : generate_session_token r st tokenLen fuel pos with
    | none => rw [hg] at hc; exact absurd hc (by simp)
    | some tok =>
      rw [hg] at hc
      simp only [Option.some.injEq, Prod.mk.injEq] at hc
      obtain ⟨-, h2⟩ := hc
      rw [← h2]
      exact dictKeys_pyDictInsert st tok _ h
  | close t st st' hc =>
    unfold close_session at hc
    split at hc
    · injection hc with h1
      rw [← h1]
      exact dictKeys_storeRemove st t h
    · exact absurd hc (by simp)
  | evict now ttl st st' he =>
    unfold remove_sessions_iter at he
    simp only [if_neg Bool.false_ne_true] at he
    injection he with h1
    rw [← h1]
    exact dictKeys_foldl_storeRemove _ st h

theorem reachableStore_nodup {tokenLen : Nat} {st : Store}
    (h : ReachableStore tokenLen st) : (dictKeys st).Nodup := by
  unfold ReachableStore at h
  induction h with
  | refl => simp [dictKeys]
  | tail _ hstep ih => exact storeStep_nodup hstep ih

/-- Every alphabet entry is one of a-z, A-Z, 0-9 and the table has the 62
characters randint draws over. -/
theorem charAt_mem_characters : ∀ k : Fin 62, charAt k ∈ characters := by
  decide

theorem genAttempt_length (r : Nat → Fin 62) (pos length : Nat) :
    (genAttempt r pos length).length = length := by
  simp [genAttempt]

theorem generate_session_token_spec (r : Nat → Fin 62) (st : Store) (length : Nat) :
    ∀ fuel pos t, generate_session_token r st length fuel pos = some t →
      t.length = length ∧ t ≠ [] ∧ (∀ c ∈ t, c ∈ characters) ∧
        storeHasKey st t = false := by
  intro fuel
  induction fuel with
  | zero =>
    intro pos t h
    exact absurd h (by simp [generate_session_token])
  | succ n ih =>
    intro pos t h
    simp only [generate_session_token] at h
    split at h
    · exact ih _ _ h
    · rename_i hcond
      injection h with h1
      subst h1
      rw [Bool.not_eq_true, Bool.or_eq_false_iff] at hcond
      refine ⟨genAttempt_length r pos length, ?_, ?_, hcond.1⟩
      · intro hnil
        rw [hnil] at hcond
        simpa using hcond.2
      · intro c hc
        rcases List.mem_map.mp hc with ⟨i, _, hi⟩
        rw [← hi]
        exact charAt_mem_characters _

/-! ## Claim theorems: connection cleanup, session close, eviction -/

/-- C3 counterexample: with a receive step that succeeds and a single
pipeline handler that raises, Server.handle_client exits without running
close_client (no try/finally protects the pipeline), refuting the claim
that the close-connection step runs on every exit path. -/
theorem C3_close_counterexample :
    (handle_client (Except.ok (0 : Nat)) [fun _ => Except.error (0 : Nat)]).closed = false := rfl

/-- C3 amended: close_client runs exactly when the receive step and every
pipeline handler succeed; an exception from receive_message or from any
handler propagates out of handle_client before close_client is reached. -/
theorem C3_close_amended {α ε : Type} (recv : Except ε α)
    (handlers : List (α → Except ε α)) :
    (handle_client recv handlers).closed = exceptIsOk (pipelineRun recv handlers) := by
  cases recv with
  | error e => rfl
  | ok m =>
    cases hr : runHandlers handlers m with
    | error e => simp [handle_client, pipelineRun, exceptIsOk, hr]
    | ok v => simp [handle_client, pipelineRun, exceptIsOk, hr]

/-- C4 counterexample: closing a present token removes it, but closing an
absent token (here: the same token a second time) raises KeyError instead
of succeeding, refuting idempotence. -/
theorem C4_close_session_counterexample :
    close_session [([97], ⟨0⟩)] [97] = .ok [] ∧
      close_session ([] : Store) [97] = .error .keyError := ⟨rfl, rfl⟩

/-- C4 amended: close_session removes the entry when the token is present;
when the token is absent, sessions.pop(token) raises KeyError, so closing
the same token twice raises on the second call rather than behaving like
closing it once. -/
theorem C4_close_session_amended (st : Store) (t : PyStr) :
    (storeHasKey st t = true →
      close_session st t = .ok (storeRemove st t) ∧
        storeGet (storeRemove st t) t = none) ∧
    (storeHasKey st t = false → close_session st t = .error .keyError) := by
  constructor
  · intro h
    exact ⟨by simp [close_session, h], storeGet_storeRemove st t⟩
  · intro h
    simp [close_session, h]

theorem C4_close_session_witness :
    (close_session [([97], ⟨0⟩)] [97] = .ok (storeRemove [([97], ⟨0⟩)] [97]) ∧
      storeGet (storeRemove [([97], ⟨0⟩)] [97]) [97] = none) ∧
    close_session ([] : Store) [97] = .error .keyError :=
  ⟨(C4_close_session_amended [([97], ⟨0⟩)] [97]).1 rfl,
   (C4_close_session_amended ([] : Store) [97]).2 rfl⟩

/-- C5 counterexample: a RuntimeError during the eviction scan makes
remove_sessions return, terminating the worker (none), refuting the claim
that an error leaves the worker alive for the next tick. -/
theorem C5_eviction_counterexample :
    remove_sessions_iter true 0 5 [] = none := rfl

/-- C5 amended: the eviction worker stays alive through any number of ticks
as long as no scan hits the RuntimeError, but the tick on which the scan
raises makes the worker return, permanently stopping eviction. -/
theorem C5_eviction_amended (err : Nat → Bool) (nows : Nat → Nat) (ttl : Nat) :
    (∀ k n st, (∀ j, j < n → err (k + j) = false) →
      (remove_sessions_run err nows ttl k n st).isSome = true) ∧
    (∀ k n st, err k = true →
      remove_sessions_run err nows ttl k (n + 1) st = none) := by
  constructor
  · intro k n
    induction n generalizing k with
    | zero => intro st _; rfl
    | succ m ih =>
      intro st h
      have h0 : err k = false := by simpa using h 0 (Nat.succ_pos m)
      show (match remove_sessions_iter (err k) (nows k) ttl st with
        | none => none
        | some st' => remove_sessions_run err nows ttl (k + 1) m st').isSome = true
      rw [h0]
      exact ih (k + 1) _ (fun j hj => by
        have hj1 := h (j + 1) (Nat.succ_lt_succ hj)
        rw [show k + 1 + j = k + (j + 1) from by omega]
        exact hj1)
  · intro k n st h
    show (match remove_sessions_iter (err k) (nows k) ttl st with
      | none => none
      | some st' => remove_sessions_run err nows ttl (k + 1) n st') = none
    rw [h]
    rfl

theorem C5_eviction_witness :
    (remove_sessions_run (fun _ => false) (fun _ => 0) 5 0 3 []).isSome = true ∧
      remove_sessions_run (fun _ => true) (fun _ => 0) 5 0 1 [] = none :=
  ⟨(C5_eviction_amended (fun _ => false) (fun _ => 0) 5).1 0 3 [] (fun _ _ => rfl),
   (C5_eviction_amended (fun _ => true) (fun _ => 0) 5).2 0 0 [] rfl⟩

/-! ## Claim theorems: dispatcher stages -/

/-- C9: a request with no Session header makes method_handler subscript
None (TypeError); an empty Session value makes it subscript an empty
string (IndexError).  Either way it fails while reading the directive's
first character: no method handler is invoked, nothing is sent, and the
store is untouched. -/
theorem C9_missing_session_fails (mh : List (PyStr × MethodFun)) (st : Store) (req : Msg) :
    (get_header_value req strSession = none →
      method_handler mh st req = ⟨st, none, none, some .typeError, none⟩) ∧
    (get_header_value req strSession = some [] →
      method_handler mh st req = ⟨st, none, none, some .indexError, none⟩) := by
  constructor
  · intro h
    unfold method_handler
    rw [h]
  · intro h
    unfold method_handler
    rw [h]

theorem C9_missing_session_witness :
    method_handler [] [] ⟨strReq, [(strMethod, [112])], some []⟩ =
        ⟨[], none, none, some .typeError, none⟩ ∧
      method_handler [] [] ⟨strReq, [(strSession, [])], some []⟩ =
        ⟨[], none, none, some .indexError, none⟩ :=
  ⟨(C9_missing_session_fails [] [] ⟨strReq, [(strMethod, [112])], some []⟩).1 rfl,
   (C9_missing_session_fails [] [] ⟨strReq, [(strSession, [])], some []⟩).2 rfl⟩

/-- C10: for any Session header value other than '*' (including a missing
header), session_generator returns the request unchanged and leaves the
session store untouched. -/
theorem C10_session_generator_frame (r : Nat → Fin 62) (tokenLen now fuel pos : Nat)
    (st : Store) (req : Msg)
    (h : get_header_value req strSession ≠ some [42]) :
    session_generator r tokenLen now fuel pos st req = some (st, req) := by
  cases hg : get_header_value req strSession with
  | none => simp [session_generator, hg]
  | some sv =>
    have hsv : ¬sv = [42] := fun he => h (by rw [hg, he])
    simp [session_generator, hg, hsv]

theorem C10_session_generator_witness :
    session_generator (fun _ => ⟨0, by decide⟩) 8 0 1 0 []
        ⟨strReq, [(strSession, [45])], some []⟩ =
      some ([], ⟨strReq, [(strSession, [45])], some []⟩) :=
  C10_session_generator_frame (fun _ => ⟨0, by decide⟩) 8 0 1 0 []
    ⟨strReq, [(strSession, [45])], some []⟩ (by decide)

/-- C6: at every reachable store state the live tokens are pairwise
distinct, and a token returned by generate_session_token (the token
create_session installs) has exactly the configured length, is non-empty,
is drawn from the a-z A-Z 0-9 alphabet, and does not collide with any
token live when it was generated. -/
theorem C6_token_uniqueness (tokenLen : Nat) (st : Store)
    (hreach : ReachableStore tokenLen st)
    (r : Nat → Fin 62) (fuel pos : Nat) (t : PyStr)
    (hg : generate_session_token r st tokenLen fuel pos = some t) :
    (dictKeys st).Nodup ∧ t.length = tokenLen ∧ t ≠ [] ∧
      (∀ c ∈ t, c ∈ characters) ∧ storeGet st t = none := by
  obtain ⟨hl, hne, hmem, hkey⟩ := generate_session_token_spec r st tokenLen fuel pos t hg
  exact ⟨reachableStore_nodup hreach, hl, hne, hmem, storeGet_eq_none st t hkey⟩

theorem C6_token_uniqueness_witness :
    (dictKeys ([] : Store)).Nodup ∧ [97].length = 1 ∧
      storeGet ([] : Store) [97] = none :=
  have h := C6_token_uniqueness 1 [] Relation.ReflTransGen.refl
    (fun _ => ⟨0, by decide⟩) 1 0 [97] rfl
  ⟨h.1, h.2.1, h.2.2.2.2⟩

/-- C2 (code bug): decoding bytes whose first three bytes are "xyz"
(decodable but not a valid tag) raises TypeError, because building the
intended CommunicationProtocolException itself fails in its constructor
(super.__init__(message) is called on the builtin super type, the
parentheses after super being missing); and decoding bytes starting with
an invalid UTF-8 byte raises UnicodeDecodeError from byte_arr[0:3].decode()
before the tag check.  The promised FramingError is never raised. -/
theorem C2_framing_code_bug :
    from_bytes [120, 121, 122] = .error .typeError ∧
      from_bytes [255, 0, 0] = .error .unicodeDecodeError := ⟨rfl, rfl⟩

/-! ## Little-endian, UTF-8 and slice-write lemmas for the codec -/

theorem toBytesLE_length (w : Nat) : ∀ v, (toBytesLE w v).length = w := by
  induction w with
  | zero => intro v; rfl
  | succ n ih => intro v; simp [toBytesLE, ih]

theorem fromBytesLE_toBytesLE (w : Nat) : ∀ v, v < 256 ^ w →
    fromBytesLE (toBytesLE w v) = v := by
  induction w with
  | zero =>
    intro v h
    interval_cases v
    rfl
  | succ n ih =>
    intro v h
    have hdiv : v / 256 < 256 ^ n := by
      rw [Nat.div_lt_iff_lt_mul (by norm_num)]
      calc v < 256 ^ (n + 1) := h
        _ = 256 ^ n * 256 := by ring
    have hrec := ih (v / 256) hdiv
    simp only [toBytesLE, fromBytesLE, List.foldr_cons] at *
    rw [hrec]
    omega

theorem pyEncode_ascii (s : PyStr) (h : ∀ c ∈ s, c < 128) : pyEncode s = s := by
  induction s with
  | nil => rfl
  | cons c cs ih =>
    have hc : c < 128 := h c (List.mem_cons_self c cs)
    have hcs := ih (fun x hx => h x (List.mem_cons_of_mem c hx))
    simp only [pyEncode, List.map_cons, List.flatten_cons] at hcs ⊢
    rw [hcs, utf8EncodeChar, if_pos hc]
    rfl

theorem params_length_eq (m : Msg) :
    ((get_params_list m).map (fun p => p.length + 1)).sum =
      (m.headers.map (fun q => q.1.length + q.2.length + 2)).sum := by
  unfold get_params_list
  rw [List.map_map]
  congr 1
  apply List.map_congr_left
  intro q _
  simp only [Function.comp_apply, List.length_append, List.length_cons,
    List.length_nil]
  omega

theorem setSlice_exact (pre mid post data : List Nat) :
    setSlice (pre ++ mid ++ post) pre.length (pre.length + mid.length) data =
      pre ++ data ++ post := by
  unfold setSlice
  rw [List.append_assoc pre mid post, List.take_left]
  congr 1
  rw [List.drop_append, List.drop_left]

theorem setSlice_shape (arr pre mid post data : List Nat) (i j : Nat)
    (harr : arr = pre ++ mid ++ post) (hi : i = pre.length)
    (hj : j = pre.length + mid.length) :
    setSlice arr i j data = pre ++ data ++ post := by
  subst harr hi hj
  exact setSlice_exact pre mid post data

theorem replicate_split (n a b : Nat) (h : n = a + b) :
    List.replicate n (0 : Nat) = List.replicate a 0 ++ List.replicate b 0 := by
  rw [h, List.replicate_add]

/-- The fixed writes of to_bytes produce the nine-byte preamble (direction
tag, ':', little-endian header length, ':') followed by the untouched
zeros. -/
theorem to_bytes_preamble (e : List Nat) (he : e.length = 3) (hl n : Nat)
    (h9 : 9 ≤ n) :
    setSlice (setSlice (setSlice (setSlice (List.replicate n 0) 0 3 e)
        3 4 [58]) 4 8 (toBytesLE 4 hl)) 8 9 [58] =
      (e ++ [58] ++ toBytesLE 4 hl ++ [58]) ++ List.replicate (n - 9) 0 := by
  have h1 : setSlice (List.replicate n 0) 0 3 e =
      [] ++ e ++ List.replicate (n - 3) 0 := by
    apply setSlice_shape _ [] (List.replicate 3 0) (List.replicate (n - 3) 0)
    · rw [List.nil_append, ← List.replicate_add]
      congr 1
      omega
    · rfl
    · simp
  have h2 : setSlice ([] ++ e ++ List.replicate (n - 3) 0) 3 4 [58] =
      e ++ [58] ++ List.replicate (n - 4) 0 := by
    apply setSlice_shape _ e (List.replicate 1 0) (List.replicate (n - 4) 0)
    · rw [List.nil_append, List.append_assoc, ← List.replicate_add]
      congr 2
      omega
    · omega
    · simp [he]
  have h3 : setSlice (e ++ [58] ++ List.replicate (n - 4) 0) 4 8
        (toBytesLE 4 hl) =
      (e ++ [58]) ++ toBytesLE 4 hl ++ List.replicate (n - 8) 0 := by
    apply setSlice_shape _ (e ++ [58]) (List.replicate 4 0)
      (List.replicate (n - 8) 0)
    · rw [List.append_assoc (e ++ [58]), ← List.replicate_add]
      congr 2
      omega
    · simp [he]
    · simp [he]
  have h4 : setSlice ((e ++ [58]) ++ toBytesLE 4 hl ++ List.replicate (n - 8) 0)
        8 9 [58] =
      ((e ++ [58]) ++ toBytesLE 4 hl) ++ [58] ++ List.replicate (n - 9) 0 := by
    apply setSlice_shape _ ((e ++ [58]) ++ toBytesLE 4 hl) (List.replicate 1 0)
      (List.replicate (n - 9) 0)
    · rw [List.append_assoc ((e ++ [58]) ++ toBytesLE 4 hl),
        ← List.replicate_add]
      congr 2
      omega
    · simp [he, toBytesLE_length]
    · simp [he, toBytesLE_length]
  rw [h1, h2, h3, h4]

/-- The parameter-writing loop of to_bytes only writes at positions 9 and
beyond, so the nine-byte preamble survives it whatever the parameters
contain, and the write position and array length stay at least 9. -/
theorem params_foldl_take9 (ps : List PyStr) :
    ∀ (a : List Nat) (i : Nat), 9 ≤ i → 9 ≤ a.length →
      (ps.foldl (fun (st : List Nat × Nat) p =>
          (setSlice st.1 st.2 (st.2 + p.length + 1) (pyEncode (p ++ [58])),
           st.2 + p.length + 1)) (a, i)).1.take 9 = a.take 9 ∧
      9 ≤ (ps.foldl (fun (st : List Nat × Nat) p =>
          (setSlice st.1 st.2 (st.2 + p.length + 1) (pyEncode (p ++ [58])),
           st.2 + p.length + 1)) (a, i)).2 ∧
      9 ≤ (ps.foldl (fun (st : List Nat × Nat) p =>
          (setSlice st.1 st.2 (st.2 + p.length + 1) (pyEncode (p ++ [58])),
           st.2 + p.length + 1)) (a, i)).1.length := by
  induction ps with
  | nil =>
    intro a i hi ha
    exact ⟨rfl, hi, ha⟩
  | cons p ps ih =>
    intro a i hi ha
    simp only [List.foldl_cons]
    have hxl : 9 ≤ (a.take i).length := by
      rw [List.length_take]
      omega
    have hstep_take :
        (setSlice a i (i + p.length + 1) (pyEncode (p ++ [58]))).take 9 =
          a.take 9 := by
      unfold setSlice
      rw [List.append_assoc, List.take_append_of_le_length hxl, List.take_take,
        Nat.min_eq_left hi]
    have hstep_len :
        9 ≤ (setSlice a i (i + p.length + 1) (pyEncode (p ++ [58]))).length := by
      unfold setSlice
      rw [List.length_append, List.length_append]
      omega
    obtain ⟨h1, h2, h3⟩ := ih _ (i + p.length + 1) (by omega) hstep_len
    exact ⟨h1.trans hstep_take, h2, h3⟩

/-- The parameter-writing loop of to_bytes: when every parameter is ASCII,
each slice assignment is exact-size, so the loop appends the encoded
"param:" runs after position i, leaving the prefix and the suffix beyond
the written region untouched. -/
theorem params_foldl_write (ps : List PyStr) :
    ∀ (a : List Nat) (i : Nat),
      (∀ p ∈ ps, ∀ c ∈ p, c < 128) →
      i + ((ps.map (fun p => p.length + 1)).sum) ≤ a.length →
      ps.foldl (fun (st : List Nat × Nat) p =>
          (setSlice st.1 st.2 (st.2 + p.length + 1) (pyEncode (p ++ [58])),
           st.2 + p.length + 1)) (a, i) =
        (a.take i ++ (ps.map (fun p => p ++ [58])).flatten ++
          a.drop (i + (ps.map (fun p => p.length + 1)).sum),
         i + (ps.map (fun p => p.length + 1)).sum) := by
  induction ps with
  | nil =>
    intro a i _ _
    simp
  | cons p ps ih =>
    intro a i hascii hlen
    have hpmem : ∀ c ∈ p, c < 128 := hascii p (List.mem_cons_self p ps)
    have hpe : pyEncode (p ++ [58]) = p ++ [58] := by
      apply pyEncode_ascii
      intro c hc
      rcases List.mem_append.mp hc with h1 | h1
      · exact hpmem c h1
      · simp only [List.mem_singleton] at h1
        omega
    have hsum : (((p :: ps).map (fun q => q.length + 1)).sum) =
        (p.length + 1) + ((ps.map (fun q => q.length + 1)).sum) := by
      simp
    rw [hsum] at hlen
    have hi_le : i ≤ a.length := by omega
    have htake_len : (a.take i).length = i := by
      rw [List.length_take]
      omega
    have hClen : (a.take i ++ (p ++ [58])).length = i + p.length + 1 := by
      rw [List.length_append, htake_len, List.length_append, List.length_cons,
        List.length_nil]
      omega
    simp only [List.foldl_cons, hpe]
    have ha' : setSlice a i (i + p.length + 1) (p ++ [58]) =
        (a.take i ++ (p ++ [58])) ++ a.drop (i + p.length + 1) := by
      unfold setSlice
      rw [List.append_assoc]
    rw [ha']
    have ha'len : ((a.take i ++ (p ++ [58])) ++ a.drop (i + p.length + 1)).length
        = a.length := by
      rw [List.length_append, hClen, List.length_drop]
      omega
    rw [ih _ _ (fun q hq => hascii q (List.mem_cons_of_mem p hq))
      (by rw [ha'len]; omega)]
    have htake : ((a.take i ++ (p ++ [58])) ++ a.drop (i + p.length + 1)).take
        (i + p.length + 1) = a.take i ++ (p ++ [58]) :=
      List.take_left' hClen
    have hdrop : ((a.take i ++ (p ++ [58])) ++ a.drop (i + p.length + 1)).drop
          (i + p.length + 1 + ((ps.map (fun q : PyStr => q.length + 1)).sum)) =
        a.drop (i + p.length + 1 + ((ps.map (fun q : PyStr => q.length + 1)).sum)) := by
      rw [← hClen, List.drop_append, List.drop_drop]
    rw [htake, hdrop]
    have hidx : i + p.length + 1 + ((ps.map (fun q : PyStr => q.length + 1)).sum) =
        i + (((p :: ps).map (fun q : PyStr => q.length + 1)).sum) := by
      rw [hsum]
      omega
    rw [hidx]
    simp [List.append_assoc]

/-- The nine preamble bytes as a flat list. -/
def preBytes (m : Msg) : List Nat :=
  pyEncode m.req_res ++ [58] ++ toBytesLE 4 (header_length m) ++ [58]

theorem params_write_take9 (m : Msg) (h : 9 ≤ (preamble_arr m).length) :
    (params_write m).1.take 9 = (preamble_arr m).take 9 ∧
      9 ≤ (params_write m).2 ∧ 9 ≤ (params_write m).1.length := by
  unfold params_write
  exact params_foldl_take9 (get_params_list m) (preamble_arr m) 9
    (Nat.le_refl 9) h

theorem preamble_arr_eq (m : Msg) (he3 : (pyEncode m.req_res).length = 3)
    (h3 : m.req_res.length = 3) :
    preamble_arr m = preBytes m ++
      List.replicate (header_length m + body_length m - 9) 0 := by
  have h9 : 9 ≤ header_length m + body_length m := by
    unfold header_length
    omega
  unfold preamble_arr preBytes
  exact to_bytes_preamble _ he3 _ _ h9

theorem preBytes_length (m : Msg) (he3 : (pyEncode m.req_res).length = 3) :
    (preBytes m).length = 9 := by
  unfold preBytes
  rw [List.length_append, List.length_append, List.length_append, he3,
    toBytesLE_length]
  rfl

/-- The first nine bytes of any successful encoding form the preamble:
direction tag, ':', the four little-endian header-length bytes, ':'. -/
theorem to_bytes_take9 (m : Msg) (bs : List Nat)
    (h3 : m.req_res.length = 3)
    (he3 : (pyEncode m.req_res).length = 3)
    (henc : to_bytes m = some bs) :
    bs.take 9 = preBytes m ∧ header_length m < 4294967296 := by
  have hpre := preamble_arr_eq m he3 h3
  have hprelen := preBytes_length m he3
  have harr9 : 9 ≤ (preamble_arr m).length := by
    rw [hpre, List.length_append, hprelen]
    omega
  obtain ⟨h1, h2, hw3⟩ := params_write_take9 m harr9
  have htake_pre : (preamble_arr m).take 9 = preBytes m := by
    rw [hpre]
    exact List.take_left' hprelen
  unfold to_bytes at henc
  split at henc
  case isFalse => exact absurd henc (by simp)
  case isTrue hlt =>
    refine ⟨?_, hlt⟩
    cases hb : m.body with
    | none =>
      rw [hb] at henc
      have hbs : (params_write m).1 = bs := Option.some.inj henc
      rw [← hbs, h1, htake_pre]
    | some b =>
      rw [hb] at henc
      have hbs : setSliceFrom (params_write m).1 (params_write m).2 b = bs :=
        Option.some.inj henc
      rw [← hbs]
      unfold setSliceFrom
      have hmin9 : 9 ≤ ((params_write m).1.take (params_write m).2).length := by
        rw [List.length_take]
        omega
      rw [List.take_append_of_le_length hmin9, List.take_take,
        Nat.min_eq_left h2, h1, htake_pre]

/-- C7: for a well-formed message the four bytes written at offsets 4..7
are exactly the little-endian encoding of 9 plus the per-header sum of
name length plus value length plus 2, and reading them back little-endian
recovers that value. -/
theorem C7_header_length (m : Msg) (bs : List Nat)
    (hdir : m.req_res = strReq ∨ m.req_res = strRes)
    (henc : to_bytes m = some bs) :
    (bs.drop 4).take 4 =
        toBytesLE 4
          (9 + (m.headers.map (fun q => q.1.length + q.2.length + 2)).sum) ∧
      fromBytesLE ((bs.drop 4).take 4) =
        9 + (m.headers.map (fun q => q.1.length + q.2.length + 2)).sum := by
  have h3 : m.req_res.length = 3 := by
    rcases hdir with h | h <;> rw [h] <;> rfl
  have he3 : (pyEncode m.req_res).length = 3 := by
    rcases hdir with h | h <;> rw [h] <;> rfl
  obtain ⟨h9, hlt⟩ := to_bytes_take9 m bs h3 he3 henc
  have hHL : header_length m =
      9 + (m.headers.map (fun q => q.1.length + q.2.length + 2)).sum := by
    unfold header_length
    rw [h3, params_length_eq]
  have h8 : (bs.take 9).take 8 = bs.take 8 := by
    rw [List.take_take]
    norm_num
  have hdt : (bs.drop 4).take 4 = toBytesLE 4 (header_length m) := by
    rw [List.take_drop, show (4 : Nat) + 4 = 8 from rfl, ← h8, h9]
    unfold preBytes
    rcases hdir with h | h <;> rw [h] <;> rfl
  rw [hHL] at hdt hlt
  refine ⟨hdt, ?_⟩
  rw [hdt]
  exact fromBytesLE_toBytesLE 4 _
    (by rw [show (256 : Nat) ^ 4 = 4294967296 from by norm_num]; exact hlt)

/-- A sample message for evaluating the header-length invariant. -/
def mC7 : Msg := ⟨strReq, [([97], [98])], some [5]⟩

theorem C7_header_length_witness :
    fromBytesLE ((((to_bytes mC7).getD []).drop 4).take 4) = 13 :=
  (C7_header_length mC7 ((to_bytes mC7).getD []) (Or.inl rfl) rfl).2

/-! ## The from_bytes header scan -/

theorem readParams_step (bs : List Nat) (hl i : Nat) (param : PyStr)
    (acc : List PyStr) (h : i < hl) :
    readParams bs hl i param acc =
      match bs.get? i with
      | none => .error .indexError
      | some b =>
        if b = 58 then readParams bs hl (i + 1) [] (acc ++ [param])
        else readParams bs hl (i + 1) (param ++ [b]) acc := by
  unfold readParams
  rw [show hl - i = (hl - (i + 1)) + 1 from by omega]
  simp only [readParamsFuel]
  rw [if_pos h]

theorem readParams_stop (bs : List Nat) (hl i : Nat) (param : PyStr)
    (acc : List PyStr) (h : hl ≤ i) :
    readParams bs hl i param acc = .ok (acc, i) := by
  unfold readParams
  rw [show hl - i = 0 from by omega]
  rfl

theorem readParams_param (bs : List Nat) (hl : Nat) (p : PyStr)
    (h58 : (58 : Nat) ∉ p) :
    ∀ (i : Nat) (param : PyStr) (acc : List PyStr) (rest : List Nat),
      bs.drop i = p ++ 58 :: rest →
      i + p.length + 1 ≤ hl →
      readParams bs hl i param acc =
        readParams bs hl (i + p.length + 1) [] (acc ++ [param ++ p]) := by
  induction p with
  | nil =>
    intro i param acc rest hdrop hle
    have hget : bs.get? i = some 58 := by
      have hg := List.get?_drop bs i 0
      rw [Nat.add_zero] at hg
      rw [← hg, hdrop]
      rfl
    rw [readParams_step bs hl i param acc (by simp at hle; omega), hget]
    simp
  | cons c p' ih =>
    intro i param acc rest hdrop hle
    have hc : ¬c = 58 := by
      intro he
      exact h58 (he ▸ List.mem_cons_self c p')
    have hget : bs.get? i = some c := by
      have hg := List.get?_drop bs i 0
      rw [Nat.add_zero] at hg
      rw [← hg, hdrop]
      rfl
    have hdrop' : bs.drop (i + 1) = p' ++ 58 :: rest := by
      rw [← List.tail_drop, hdrop]
      rfl
    have h58' : (58 : Nat) ∉ p' := fun hm => h58 (List.mem_cons_of_mem c hm)
    rw [readParams_step bs hl i param acc
        (by simp only [List.length_cons] at hle; omega), hget]
    show (if c = 58 then readParams bs hl (i + 1) [] (acc ++ [param])
        else readParams bs hl (i + 1) (param ++ [c]) acc) =
      readParams bs hl (i + (c :: p').length + 1) [] (acc ++ [param ++ c :: p'])
    rw [if_neg hc]
    rw [ih h58' (i + 1) (param ++ [c]) acc rest hdrop'
      (by simp only [List.length_cons] at hle ⊢; omega)]
    have hidx : i + 1 + p'.length + 1 = i + (c :: p').length + 1 := by
      simp only [List.length_cons]
      omega
    have hacc : (param ++ [c]) ++ p' = param ++ c :: p' := by
      rw [List.append_assoc]
      rfl
    rw [hidx, hacc]

theorem readParams_all (bs : List Nat) (hl : Nat) :
    ∀ (ps : List PyStr) (i : Nat) (acc : List PyStr),
      (∀ p ∈ ps, (58 : Nat) ∉ p) →
      bs.drop i = (ps.map (fun p => p ++ [58])).flatten ++
        bs.drop (i + ((ps.map (fun p => p.length + 1)).sum)) →
      i + ((ps.map (fun p => p.length + 1)).sum) = hl →
      readParams bs hl i [] acc = .ok (acc ++ ps, hl) := by
  intro ps
  induction ps with
  | nil =>
    intro i acc _ _ hsum
    have hieq : i = hl := by simpa using hsum
    rw [readParams_stop bs hl i [] acc (by omega), hieq]
    simp
  | cons p ps ih =>
    intro i acc hno58 hdrop hsum
    simp only [List.map_cons, List.flatten_cons, List.sum_cons] at hdrop hsum
    have hp58 : (58 : Nat) ∉ p := hno58 p (List.mem_cons_self p ps)
    have hdrop2 : bs.drop i = p ++ 58 ::
        ((ps.map (fun q => q ++ [58])).flatten ++
          bs.drop (i + (p.length + 1 + ((ps.map (fun q => q.length + 1)).sum)))) := by
      rw [hdrop]
      simp [List.append_assoc]
    rw [readParams_param bs hl p hp58 i [] acc _ hdrop2 (by omega)]
    have hdrop3 : bs.drop (i + p.length + 1) =
        (ps.map (fun q => q ++ [58])).flatten ++
          bs.drop (i + p.length + 1 + ((ps.map (fun q => q.length + 1)).sum)) := by
      rw [show i + p.length + 1 = i + (p.length + 1) from by omega,
        ← List.drop_drop, hdrop2]
      rw [show (p ++ 58 :: ((ps.map (fun q => q ++ [58])).flatten ++
          bs.drop (i + (p.length + 1 + ((ps.map (fun q => q.length + 1)).sum)))) :
            List Nat) =
          (p ++ [58]) ++ ((ps.map (fun q => q ++ [58])).flatten ++
          bs.drop (i + (p.length + 1 + ((ps.map (fun q => q.length + 1)).sum))))
          from by rw [List.append_assoc]; rfl]
      rw [List.drop_left' (by simp)]
      congr 2
      omega
    rw [ih (i + p.length + 1) (acc ++ [[] ++ p])
      (fun q hq => hno58 q (List.mem_cons_of_mem p hq)) hdrop3 (by omega)]
    have hl1 : (acc ++ [[] ++ p]) ++ ps = acc ++ p :: ps := by
      rw [List.append_assoc]
      rfl
    rw [hl1]

/-! ## Parameter splitting and dictionary reconstruction -/

theorem pySplit_no_sep (c : Nat) (s : PyStr) (h : c ∉ s) : pySplit c s = [s] := by
  induction s with
  | nil => rfl
  | cons b rest ih =>
    have hb : ¬b = c := fun he => h (he ▸ List.mem_cons_self b rest)
    have hr := ih (fun hm => h (List.mem_cons_of_mem b hm))
    simp only [pySplit]
    rw [if_neg hb, hr]

theorem pySplit_sep (c : Nat) (a s : PyStr) (h : c ∉ a) :
    pySplit c (a ++ c :: s) = a :: pySplit c s := by
  induction a with
  | nil =>
    simp only [List.nil_append, pySplit, if_pos]
  | cons x a' ih =>
    have hx : ¬x = c := fun he => h (he ▸ List.mem_cons_self x a')
    have ha' := ih (fun hm => h (List.mem_cons_of_mem x hm))
    simp only [List.cons_append, pySplit, List.append_eq]
    rw [if_neg hx, ha']

theorem pyDictInsert_fresh {α : Type} (d : List (PyStr × α)) (k : PyStr) (v : α)
    (h : k ∉ dictKeys d) : pyDictInsert d k v = d ++ [(k, v)] := by
  unfold pyDictInsert
  rw [if_neg]
  intro hany
  rw [List.any_eq_true] at hany
  obtain ⟨p, hp, hpk⟩ := hany
  simp only [decide_eq_true_eq] at hpk
  exact h (hpk ▸ List.mem_map_of_mem Prod.fst hp)

theorem params_to_dict_append :
    ∀ (hs : List (PyStr × PyStr)) (acc : List (PyStr × PyStr)),
      (∀ q ∈ hs, (61 : Nat) ∉ q.1 ∧ (61 : Nat) ∉ q.2) →
      (dictKeys hs).Nodup →
      (∀ q ∈ hs, q.1 ∉ dictKeys acc) →
      params_list_to_dict_go acc (hs.map (fun q => q.1 ++ [61] ++ q.2)) =
        .ok (acc ++ hs) := by
  intro hs
  induction hs with
  | nil =>
    intro acc _ _ _
    simp [params_list_to_dict_go]
  | cons q hs ih =>
    intro acc hno hnodup hfresh
    obtain ⟨hn1, hn2⟩ := hno q (List.mem_cons_self q hs)
    have hsplit : pySplit 61 (q.1 ++ [61] ++ q.2) = [q.1, q.2] := by
      rw [List.append_assoc,
        show ([61] ++ q.2 : PyStr) = 61 :: q.2 from rfl,
        pySplit_sep 61 q.1 q.2 hn1, pySplit_no_sep 61 q.2 hn2]
    have hkeys : dictKeys (q :: hs) = q.1 :: dictKeys hs := rfl
    rw [hkeys, List.nodup_cons] at hnodup
    have hins : pyDictInsert acc q.1 q.2 = acc ++ [(q.1, q.2)] :=
      pyDictInsert_fresh acc q.1 q.2 (hfresh q (List.mem_cons_self q hs))
    have hfresh' : ∀ q' ∈ hs, q'.1 ∉ dictKeys (acc ++ [(q.1, q.2)]) := by
      intro q' hq' hmem
      unfold dictKeys at hmem
      rw [List.map_append, List.mem_append] at hmem
      rcases hmem with hmem | hmem
      · exact hfresh q' (List.mem_cons_of_mem q hq') hmem
      · simp only [List.map_cons, List.map_nil, List.mem_singleton] at hmem
        exact hnodup.1 (hmem ▸ List.mem_map_of_mem Prod.fst hq')
    simp only [List.map_cons, params_list_to_dict_go, hsplit]
    show params_list_to_dict_go (pyDictInsert acc q.1 q.2)
        (hs.map (fun q => q.1 ++ [61] ++ q.2)) = .ok (acc ++ q :: hs)
    rw [hins, ih (acc ++ [(q.1, q.2)])
      (fun q' hq' => hno q' (List.mem_cons_of_mem q hq')) hnodup.2 hfresh',
      List.append_assoc]
    rfl

/-! ## The full byte layout of an ASCII encoding, and the round trip -/

theorem flatten_params_length (ps : List PyStr) :
    ((ps.map (fun p => p ++ [58])).flatten).length =
      (ps.map (fun p => p.length + 1)).sum := by
  induction ps with
  | nil => rfl
  | cons p ps ih =>
    simp [ih]
    omega

theorem take9_field (m : Msg) (bs : List Nat)
    (hdir : m.req_res = strReq ∨ m.req_res = strRes)
    (h9 : bs.take 9 = preBytes m) :
    (bs.drop 4).take 4 = toBytesLE 4 (header_length m) := by
  have h8 : (bs.take 9).take 8 = bs.take 8 := by
    rw [List.take_take]
    norm_num
  rw [List.take_drop, show (4 : Nat) + 4 = 8 from rfl, ← h8, h9]
  unfold preBytes
  rcases hdir with h | h <;> rw [h] <;> rfl

theorem params_write_eq (m : Msg)
    (hascii : ∀ p ∈ get_params_list m, ∀ c ∈ p, c < 128)
    (hlen : 9 + ((get_params_list m).map (fun p => p.length + 1)).sum ≤
      (preamble_arr m).length) :
    params_write m =
      ((preamble_arr m).take 9 ++
        ((get_params_list m).map (fun p => p ++ [58])).flatten ++
        (preamble_arr m).drop
          (9 + ((get_params_list m).map (fun p => p.length + 1)).sum),
       9 + ((get_params_list m).map (fun p => p.length + 1)).sum) := by
  unfold params_write
  exact params_foldl_write (get_params_list m) (preamble_arr m) 9 hascii hlen

/-- For an ASCII message with a body, the encoder output is exactly the
nine preamble bytes, the concatenated "name=value:" runs, then the body. -/
theorem to_bytes_shape (m : Msg) (b bs : List Nat)
    (h3 : m.req_res.length = 3)
    (he3 : (pyEncode m.req_res).length = 3)
    (hascii : ∀ p ∈ get_params_list m, ∀ c ∈ p, c < 128)
    (hbody : m.body = some b)
    (henc : to_bytes m = some bs) :
    bs = (preBytes m ++
      ((get_params_list m).map (fun p => p ++ [58])).flatten) ++ b := by
  have hpre := preamble_arr_eq m he3 h3
  have hprelen := preBytes_length m he3
  have hbl : body_length m = b.length := by
    unfold body_length
    rw [hbody]
  have hHL9 : header_length m =
      9 + ((get_params_list m).map (fun p => p.length + 1)).sum := by
    unfold header_length
    rw [h3]
  have harrlen : (preamble_arr m).length = header_length m + body_length m := by
    rw [hpre, List.length_append, hprelen, List.length_replicate]
    omega
  have hwlen : 9 + ((get_params_list m).map (fun p => p.length + 1)).sum ≤
      (preamble_arr m).length := by
    rw [harrlen]
    omega
  have hw := params_write_eq m hascii hwlen
  have htake_pre : (preamble_arr m).take 9 = preBytes m := by
    rw [hpre]
    exact List.take_left' hprelen
  have hdrop_pre : (preamble_arr m).drop
      (9 + ((get_params_list m).map (fun p => p.length + 1)).sum) =
      List.replicate (body_length m) 0 := by
    rw [hpre, show (9 : Nat) +
        ((get_params_list m).map (fun p => p.length + 1)).sum =
        (preBytes m).length +
          ((get_params_list m).map (fun p => p.length + 1)).sum
        from by rw [hprelen], List.drop_append, List.drop_replicate]
    congr 1
    omega
  unfold to_bytes at henc
  split at henc
  case isFalse => exact absurd henc (by simp)
  case isTrue hlt =>
    rw [hbody] at henc
    have hbs : setSliceFrom (params_write m).1 (params_write m).2 b = bs :=
      Option.some.inj henc
    have hw1 : (params_write m).1 = preBytes m ++
        ((get_params_list m).map (fun p => p ++ [58])).flatten ++
        List.replicate (body_length m) 0 := by
      rw [hw, htake_pre, hdrop_pre]
    have hw2 : (params_write m).2 =
        9 + ((get_params_list m).map (fun p => p.length + 1)).sum := by
      rw [hw]
    rw [← hbs, hw1, hw2]
    unfold setSliceFrom
    rw [show preBytes m ++
        ((get_params_list m).map (fun p => p ++ [58])).flatten ++
        List.replicate (body_length m) 0 =
        (preBytes m ++
          ((get_params_list m).map (fun p => p ++ [58])).flatten) ++
        List.replicate (body_length m) 0 from by rw [List.append_assoc]]
    rw [List.take_left' (by rw [List.length_append, hprelen,
      flatten_params_length])]

/-- C1 counterexample: the header name is "é" (code point 233), which
contains neither ':' nor '='.  The encoder counts one character but writes
two UTF-8 bytes, mis-sizing the frame: the trailing ':' of the parameter
run is cut off and the decoder, scanning character counts, finds no
complete parameter, so the decoded message has no headers at all. -/
theorem C1_roundtrip_counterexample :
    to_bytes ⟨strReq, [([233], [118])], some []⟩ =
        some [114, 101, 113, 58, 13, 0, 0, 0, 58, 195, 169, 61, 118] ∧
      from_bytes [114, 101, 113, 58, 13, 0, 0, 0, 58, 195, 169, 61, 118] =
        .ok ⟨strReq, [], some []⟩ := ⟨rfl, rfl⟩

/-- C1 amended: for a message whose direction is req or res, whose header
names and values are ASCII strings free of ':' and '=', whose header names
are pairwise distinct (a dict invariant), and whose body is a byte
sequence, decoding a successful encoding returns the message itself. -/
theorem C1_roundtrip_amended (m : Msg) (b bs : List Nat)
    (hdir : m.req_res = strReq ∨ m.req_res = strRes)
    (hhead : ∀ q ∈ m.headers,
      (∀ c ∈ q.1, c < 128 ∧ c ≠ 58 ∧ c ≠ 61) ∧
        (∀ c ∈ q.2, c < 128 ∧ c ≠ 58 ∧ c ≠ 61))
    (hnodup : (dictKeys m.headers).Nodup)
    (hbody : m.body = some b)
    (henc : to_bytes m = some bs) :
    from_bytes bs = .ok m := by
  have h3 : m.req_res.length = 3 := by
    rcases hdir with h | h <;> rw [h] <;> rfl
  have he3 : (pyEncode m.req_res).length = 3 := by
    rcases hdir with h | h <;> rw [h] <;> rfl
  have hprelen := preBytes_length m he3
  have hparam : ∀ p ∈ get_params_list m,
      (∀ c ∈ p, c < 128) ∧ (58 : Nat) ∉ p := by
    intro p hp
    unfold get_params_list at hp
    rcases List.mem_map.mp hp with ⟨q, hq, hpq⟩
    obtain ⟨hq1, hq2⟩ := hhead q hq
    constructor
    · intro c hc
      rw [← hpq] at hc
      rcases List.mem_append.mp hc with hc | hc
      · rcases List.mem_append.mp hc with hc | hc
        · exact (hq1 c hc).1
        · simp only [List.mem_singleton] at hc
          omega
      · exact (hq2 c hc).1
    · intro hc
      rw [← hpq] at hc
      rcases List.mem_append.mp hc with hc | hc
      · rcases List.mem_append.mp hc with hc | hc
        · exact (hq1 58 hc).2.1 rfl
        · simp only [List.mem_singleton] at hc
          omega
      · exact (hq2 58 hc).2.1 rfl
  have hascii : ∀ p ∈ get_params_list m, ∀ c ∈ p, c < 128 :=
    fun p hp => (hparam p hp).1
  have hno58 : ∀ p ∈ get_params_list m, (58 : Nat) ∉ p :=
    fun p hp => (hparam p hp).2
  have hno61 : ∀ q ∈ m.headers, (61 : Nat) ∉ q.1 ∧ (61 : Nat) ∉ q.2 := by
    intro q hq
    obtain ⟨hq1, hq2⟩ := hhead q hq
    exact ⟨fun hm => (hq1 61 hm).2.2 rfl, fun hm => (hq2 61 hm).2.2 rfl⟩
  have hshape := to_bytes_shape m b bs h3 he3 hascii hbody henc
  obtain ⟨h9, hlt⟩ := to_bytes_take9 m bs h3 he3 henc
  have heq : pyEncode m.req_res = m.req_res := by
    rcases hdir with h | h <;> rw [h] <;> rfl
  have hts : bs.take 3 = m.req_res := by
    have h39 : (bs.take 9).take 3 = bs.take 3 := by
      rw [List.take_take]
      norm_num
    rw [← h39, h9]
    unfold preBytes
    rw [heq]
    simp only [List.append_assoc]
    exact List.take_left' h3
  have hdec : utf8Decode m.req_res = some m.req_res := by
    rcases hdir with h | h <;> rw [h] <;> rfl
  have hhl : fromBytesLE ((bs.drop 4).take 4) = header_length m := by
    rw [take9_field m bs hdir h9]
    exact fromBytesLE_toBytesLE 4 _
      (by rw [show (256 : Nat) ^ 4 = 4294967296 from by norm_num]; exact hlt)
  have hF := flatten_params_length (get_params_list m)
  have hXlen : (preBytes m ++
      ((get_params_list m).map (fun p => p ++ [58])).flatten).length =
      9 + ((get_params_list m).map (fun p => p.length + 1)).sum := by
    rw [List.length_append, hprelen, hF]
  have hdrop9 : bs.drop 9 =
      ((get_params_list m).map (fun p => p ++ [58])).flatten ++ b := by
    rw [hshape, List.append_assoc]
    exact List.drop_left' hprelen
  have hdropHL : bs.drop
      (9 + ((get_params_list m).map (fun p => p.length + 1)).sum) = b := by
    rw [hshape]
    exact List.drop_left' hXlen
  have hsum9 : 9 + ((get_params_list m).map (fun p => p.length + 1)).sum =
      header_length m := by
    unfold header_length
    rw [h3]
  have hread : readParams bs (header_length m) 9 [] [] =
      .ok (get_params_list m, header_length m) := by
    exact readParams_all bs (header_length m) (get_params_list m) 9 [] hno58
      (by rw [hdrop9, hdropHL]) hsum9
  have hdict : params_list_to_dict (get_params_list m) = .ok m.headers := by
    unfold params_list_to_dict get_params_list
    rw [params_to_dict_append m.headers [] hno61 hnodup
      (by intro q hq; simp [dictKeys])]
    rfl
  unfold from_bytes
  rw [hts, hdec]
  show from_bytes_tagged bs m.req_res = .ok m
  unfold from_bytes_tagged
  rw [if_pos hdir, hhl]
  unfold from_bytes_body
  rw [hread]
  show (match params_list_to_dict (get_params_list m) with
    | Except.error e => Except.error e
    | Except.ok headers =>
      (Except.ok ⟨m.req_res, headers, some (bs.drop (header_length m))⟩ :
        Except PyErr Msg)) = Except.ok m
  rw [hdict]
  show (Except.ok ⟨m.req_res, m.headers, some (bs.drop (header_length m))⟩ :
    Except PyErr Msg) = Except.ok m
  rw [show bs.drop (header_length m) = b from by rw [← hsum9]; exact hdropHL,
    ← hbody]

/-- A sample message for evaluating the round trip. -/
def mC1w : Msg := ⟨strReq, [([97], [98]), ([67, 76], [48])], some [1, 2, 3]⟩

theorem C1_roundtrip_witness :
    from_bytes ((to_bytes mC1w).getD []) = .ok mC1w :=
  C1_roundtrip_amended mC1w [1, 2, 3] ((to_bytes mC1w).getD []) (Or.inl rfl)
    (by decide) (by decide) rfl rfl

/-! ## Dictionary get-after-set lemmas -/

theorem find?_map_update {α : Type} (d : List (PyStr × α)) (k k' : PyStr)
    (v : α) (hne : ¬k' = k) :
    (d.map (fun p => if p.1 = k then (k, v) else p)).find?
        (fun p => decide (p.1 = k')) =
      d.find? (fun p => decide (p.1 = k')) := by
  induction d with
  | nil => rfl
  | cons p d ih =>
    by_cases hpk : p.1 = k
    · simp only [List.map_cons]
      rw [if_pos hpk]
      rw [List.find?_cons_of_neg _ (by
            simp only [decide_eq_true_eq]
            intro h
            exact hne h.symm),
        List.find?_cons_of_neg _ (by
            simp only [decide_eq_true_eq]
            intro h
            apply hne
            rw [← h]
            exact hpk)]
      exact ih
    · simp only [List.map_cons]
      rw [if_neg hpk]
      by_cases hpk' : p.1 = k'
      · rw [List.find?_cons_of_pos _ (by simp [hpk']),
          List.find?_cons_of_pos _ (by simp [hpk'])]
      · rw [List.find?_cons_of_neg _ (by simp [hpk']),
          List.find?_cons_of_neg _ (by simp [hpk'])]
        exact ih

theorem find?_append_single {α : Type} (d : List (PyStr × α)) (k k' : PyStr)
    (v : α) (hne : ¬k' = k) :
    (d ++ [(k, v)]).find? (fun p => decide (p.1 = k')) =
      d.find? (fun p => decide (p.1 = k')) := by
  induction d with
  | nil =>
    rw [List.nil_append,
      List.find?_cons_of_neg _ (by
        simp only [decide_eq_true_eq]
        intro h
        exact hne h.symm)]
  | cons p d ih =>
    by_cases hpk' : p.1 = k'
    · rw [List.cons_append, List.find?_cons_of_pos _ (by simp [hpk']),
        List.find?_cons_of_pos _ (by simp [hpk'])]
    · rw [List.cons_append, List.find?_cons_of_neg _ (by simp [hpk']),
        List.find?_cons_of_neg _ (by simp [hpk'])]
      exact ih

theorem pyDictGet_insert_self {α : Type} (d : List (PyStr × α)) (k : PyStr)
    (v : α) : pyDictGet (pyDictInsert d k v) k = some v := by
  induction d with
  | nil => simp [pyDictInsert, pyDictGet, List.find?]
  | cons p d ih =>
    by_cases hpk : p.1 = k
    · have hany : (p :: d).any (fun q => decide (q.1 = k)) = true := by
        simp [List.any_cons, hpk]
      unfold pyDictInsert
      rw [if_pos hany]
      simp only [List.map_cons]
      rw [if_pos hpk]
      unfold pyDictGet
      rw [List.find?_cons_of_pos _ (by simp)]
      rfl
    · have hins : pyDictInsert (p :: d) k v = p :: pyDictInsert d k v := by
        unfold pyDictInsert
        by_cases hany : d.any (fun q => decide (q.1 = k)) = true
        · rw [if_pos (by simp [List.any_cons, hany]), if_pos hany]
          simp [hpk]
        · rw [if_neg (by simp [List.any_cons, hany, hpk]), if_neg hany]
          rfl
      rw [hins]
      unfold pyDictGet
      rw [List.find?_cons_of_neg _ (by simp [hpk])]
      exact ih

theorem pyDictGet_insert_ne {α : Type} (d : List (PyStr × α)) (k k' : PyStr)
    (v : α) (hne : ¬k' = k) :
    pyDictGet (pyDictInsert d k v) k' = pyDictGet d k' := by
  unfold pyDictInsert
  by_cases hany : d.any (fun q => decide (q.1 = k)) = true
  · rw [if_pos hany]
    unfold pyDictGet
    rw [find?_map_update d k k' v hne]
  · rw [if_neg hany]
    unfold pyDictGet
    rw [find?_append_single d k k' v hne]

/-! ## Directive semantics of the dispatcher -/

theorem method_handler_cons (mh : List (PyStr × MethodFun)) (st : Store)
    (req : Msg) (c : Nat) (rest : PyStr)
    (hsv : get_header_value req strSession = some (c :: rest)) :
    method_handler mh st req =
      method_handler_dispatch mh st req c
        (if c = 126 then rest else c :: rest) := by
  unfold method_handler
  rw [hsv]

theorem method_handler_dispatch_resolved (mh : List (PyStr × MethodFun))
    (st : Store) (req : Msg) (c : Nat) (tok : PyStr) (mname : PyStr)
    (f : MethodFun)
    (hm : get_header_value req strMethod = some mname)
    (hf : pyDictGet mh mname = some f) :
    method_handler_dispatch mh st req c tok =
      method_handler_send st req
        (f req (set_header_value ⟨strRes, [], none⟩ strSession tok)
          (if tok = [45] then none else get_session st tok))
        c tok (if tok = [45] then none else get_session st tok) := by
  unfold method_handler_dispatch
  rw [hm]
  show (match pyDictGet mh mname with
    | none => (⟨st, none, none, some PyErr.keyError, none⟩ : MHResult)
    | some f =>
      method_handler_send st req
        (f req (set_header_value ⟨strRes, [], none⟩ strSession tok)
          (if tok = [45] then none else get_session st tok))
        c tok (if tok = [45] then none else get_session st tok)) =
    method_handler_send st req
      (f req (set_header_value ⟨strRes, [], none⟩ strSession tok)
        (if tok = [45] then none else get_session st tok))
      c tok (if tok = [45] then none else get_session st tok)
  rw [hf]

theorem method_handler_send_called (st : Store) (req res2 : Msg) (c : Nat)
    (tok : PyStr) (sess : Option Session) :
    (method_handler_send st req res2 c tok sess).handlerCalled = some sess := by
  unfold method_handler_send
  cases to_bytes res2 with
  | none => rfl
  | some v =>
    by_cases hc : c = 126
    · rw [if_pos hc]
      cases close_session st tok with
      | ok st' => rfl
      | error e => rfl
    · rw [if_neg hc]

theorem method_handler_send_sent (st : Store) (req res2 : Msg) (c : Nat)
    (tok : PyStr) (sess : Option Session) (r2 : Msg)
    (h : (method_handler_send st req res2 c tok sess).sent = some r2) :
    r2 = res2 := by
  unfold method_handler_send at h
  cases hto : to_bytes res2 with
  | none =>
    rw [hto] at h
    exact absurd h (by simp)
  | some v =>
    rw [hto] at h
    by_cases hc : c = 126
    · rw [if_pos hc] at h
      cases hcl : close_session st tok with
      | ok st' =>
        rw [hcl] at h
        exact (Option.some.inj h).symm
      | error e =>
        rw [hcl] at h
        exact (Option.some.inj h).symm
    · rw [if_neg hc] at h
      exact (Option.some.inj h).symm

theorem method_handler_send_close (st : Store) (req res2 : Msg)
    (tok : PyStr) (sess : Option Session)
    (h : (method_handler_send st req res2 126 tok sess).sent.isSome = true) :
    storeGet (method_handler_send st req res2 126 tok sess).store tok = none := by
  unfold method_handler_send at h ⊢
  cases hto : to_bytes res2 with
  | none =>
    rw [hto] at h
    simp at h
  | some v =>
    cases hcl : close_session st tok with
    | ok st' =>
      have hst' : st' = storeRemove st tok := by
        unfold close_session at hcl
        split at hcl
        · exact (Except.ok.inj hcl).symm
        · exact absurd hcl (by simp)
      show storeGet st' tok = none
      rw [hst']
      exact storeGet_storeRemove st tok
    | error e =>
      have hfalse : storeHasKey st tok = false := by
        unfold close_session at hcl
        split at hcl
        · exact absurd hcl (by simp)
        · rename_i hcond
          simpa using hcond
      show storeGet st tok = none
      exact storeGet_eq_none st tok hfalse

/-- C8: the three session directives, for a dispatched request whose Method
header names a registered handler.  For '*', the session-generation stage
replaces the Session header with a token that was not live before, and the
sent response (for a business handler that leaves the Session header of
res alone) carries exactly that token.  For '~token', once the response
has been sent the token is no longer in the store.  For '-', the business
handler is invoked with a null session. -/
theorem C8_directive_semantics (r : Nat → Fin 62) (tokenLen now fuel pos : Nat)
    (mh : List (PyStr × MethodFun)) (st : Store) (req : Msg)
    (mname : PyStr) (f : MethodFun)
    (hm : get_header_value req strMethod = some mname)
    (hf : pyDictGet mh mname = some f) :
    (∀ st' req', get_header_value req strSession = some [42] →
      session_generator r tokenLen now fuel pos st req = some (st', req') →
      ∃ t, get_header_value req' strSession = some t ∧ storeGet st t = none ∧
        t ≠ [] ∧
        ∀ r2, (∀ a b s, get_header_value (f a b s) strSession =
            get_header_value b strSession) →
          (method_handler mh st' req').sent = some r2 →
          get_header_value r2 strSession = some t) ∧
    (∀ tok, get_header_value req strSession = some (126 :: tok) →
      (method_handler mh st req).sent.isSome = true →
      storeGet (method_handler mh st req).store tok = none) ∧
    (get_header_value req strSession = some [45] →
      (method_handler mh st req).handlerCalled = some none) := by
  refine ⟨?_, ?_, ?_⟩
  · intro st' req' hsv hsg
    unfold session_generator at hsg
    rw [hsv] at hsg
    have hsg2 : (match create_session r st tokenLen now fuel pos with
        | none => none
        | some (session_token, st2) =>
          some (st2, set_header_value req strSession session_token)) =
        some (st', req') := hsg
    cases hcs : create_session r st tokenLen now fuel pos with
    | none =>
      rw [hcs] at hsg2
      exact absurd hsg2 (by simp)
    | some pr =>
      obtain ⟨t, st2⟩ := pr
      rw [hcs] at hsg2
      simp only [Option.some.injEq, Prod.mk.injEq] at hsg2
      obtain ⟨hst2, hreq'⟩ := hsg2
      unfold create_session at hcs
      cases hgen : generate_session_token r st tokenLen fuel pos with
      | none =>
        rw [hgen] at hcs
        exact absurd hcs (by simp)
      | some tok0 =>
        rw [hgen] at hcs
        simp only [Option.some.injEq, Prod.mk.injEq] at hcs
        obtain ⟨htok, hst2'⟩ := hcs
        subst htok
        obtain ⟨hlen, hne, hchars, hhk⟩ :=
          generate_session_token_spec r st tokenLen fuel pos tok0 hgen
        refine ⟨tok0, ?_, storeGet_eq_none st tok0 hhk, hne, ?_⟩
        · rw [← hreq']
          unfold get_header_value set_header_value
          exact pyDictGet_insert_self req.headers strSession tok0
        · intro r2 hpr hsent
          cases ht : tok0 with
          | nil => exact absurd ht hne
          | cons c rest =>
            have hc126 : ¬c = 126 := by
              intro he
              have hmem : (126 : Nat) ∈ characters := by
                rw [← he]
                exact hchars c (ht ▸ List.mem_cons_self c rest)
              exact absurd hmem (by decide)
            have hsv' : get_header_value req' strSession = some (c :: rest) := by
              rw [← hreq', ← ht]
              unfold get_header_value set_header_value
              exact pyDictGet_insert_self req.headers strSession tok0
            have hm' : get_header_value req' strMethod = some mname := by
              rw [← hreq']
              unfold get_header_value set_header_value
              rw [pyDictGet_insert_ne req.headers strSession strMethod tok0
                (by decide)]
              exact hm
            rw [method_handler_cons mh st' req' c rest hsv'] at hsent
            rw [method_handler_dispatch_resolved mh st' req' c _ mname f
              hm' hf] at hsent
            have hr2 := method_handler_send_sent _ _ _ _ _ _ r2 hsent
            rw [hr2, hpr]
            unfold get_header_value set_header_value
            rw [pyDictGet_insert_self]
            rw [if_neg hc126, ← ht]
  · intro tok hsv hsome
    rw [method_handler_cons mh st req 126 tok hsv] at hsome ⊢
    rw [method_handler_dispatch_resolved mh st req 126 _ mname f hm hf]
      at hsome ⊢
    exact method_handler_send_close st req _
      (if (126 : Nat) = 126 then tok else 126 :: tok) _ hsome
  · intro hsv
    rw [method_handler_cons mh st req 45 [] hsv,
      method_handler_dispatch_resolved mh st req 45 _ mname f hm hf,
      method_handler_send_called]
    rfl

/-- A business handler that echoes res unchanged, and a request carrying
the '-' directive, for evaluating the dispatcher. -/
def fC8 : MethodFun := fun _ b _ => b

def mhC8 : List (PyStr × MethodFun) := [([112], fC8)]

def reqC8 : Msg := ⟨strReq, [(strSession, [45]), (strMethod, [112])], some []⟩

theorem C8_directive_semantics_witness :
    (method_handler mhC8 [] reqC8).handlerCalled = some none :=
  (C8_directive_semantics (fun _ => ⟨0, by decide⟩) 8 0 1 0 mhC8 [] reqC8
    [112] fC8 rfl rfl).2.2 rfl
